import Mathlib

/-!
Verification development for the multithreaded file compression tool
(`src/task2.cpp`).  The file embeds, as executable Lean definitions:

* the streaming codec loop of `processFile` (lines 25-89): chunked reads
  from the source stream, the inner drain loop over a fixed-size output
  buffer, the `inFile.eof() ? Z_FINISH : Z_NO_FLUSH` flush selection, the
  `Z_STREAM_ERROR` abort path, and the final status report;
* the file-system visible behaviour of `processFile` (early returns when
  the source or destination stream cannot be opened);
* the job-dispatch mechanism of `processFiles` (lines 91-116): the shared
  cursor protected by a mutex, workers repeatedly claiming the next
  unclaimed index, and the spawn/join structure.

The underlying transform (zlib `deflate`/`inflate`) is external to the
repository; it is modelled from the spec (section 4.1) as a stateful
streaming transform.  All loops are embedded with explicit fuel so that
every definition is executable and kernel-reducible.
-/

set_option autoImplicit false

namespace Task2

/-- Bytes of the streams; modelled as natural numbers (values below 256 in
any real stream, though nothing in the driver depends on that bound). -/
abbrev Byte := Nat

/-- The flush argument passed to the transform: `Z_NO_FLUSH` or `Z_FINISH`
(the only two values `processFile` ever passes, line 64 and line 66). -/
inductive ZFlush where
  | noFlush
  | finish
deriving DecidableEq, Repr

/-- Return codes of the underlying transform, at the granularity the
driver distinguishes: `processFile` (line 69) tests only for
`Z_STREAM_ERROR`; every other return is treated alike.  `dataError`
stands for `Z_DATA_ERROR` (corrupt input reported by `inflate`). -/
inductive ZRet where
  | ok
  | streamEnd
  | streamError
  | dataError
deriving DecidableEq, Repr

/-- Modelled from the spec: the stateful streaming transform wrapped by
`StreamCodec` (zlib is external to the repository).  `step st availIn
flush cap` is one invocation of `deflate`/`inflate`: it receives the
state, the input bytes still available (`next_in`/`avail_in`), the flush
mode, and the output-buffer capacity (`avail_out` on entry), and returns
the return code, the bytes produced into the output buffer (at most
`cap`), the input bytes left unconsumed, and the new state. -/
structure Transform (σ : Type) where
  init : σ
  step : σ → List Byte → ZFlush → Nat → ZRet × List Byte × List Byte × σ

/-- Result of the inner drain loop of `processFile` (lines 58-78).
`done` is the normal exit (`zs.avail_out != 0`); `errAbort` is the early
`return` on `Z_STREAM_ERROR` (lines 69-73); `noFuel` marks fuel
exhaustion of the embedding (never reached by the modelled transforms,
see the termination theorems).  Each constructor carries the bytes
written to the destination so far and the trace of transform
invocations (flush passed, return code observed). -/
inductive DrainOut (σ : Type) where
  | done (out : List Byte) (calls : List (ZFlush × ZRet)) (s : σ) (availIn : List Byte)
  | errAbort (out : List Byte) (calls : List (ZFlush × ZRet))
  | noFuel (out : List Byte) (calls : List (ZFlush × ZRet))

/-- The inner drain loop of `processFile` (lines 58-78): a do-while that
invokes the transform against a fresh `cap`-sized output buffer, aborts
on `Z_STREAM_ERROR` without writing that iteration's output, otherwise
writes `outBuffer.size() - zs.avail_out` bytes, and repeats while
`zs.avail_out == 0`, i.e. while the iteration filled the buffer
completely. -/
def drain {σ : Type} (T : Transform σ) (cap : Nat) (flush : ZFlush) :
    Nat → σ → List Byte → DrainOut σ
  | 0, _, _ => .noFuel [] []
  | fuel + 1, s, availIn =>
    match T.step s availIn flush cap with
    | (ret, out, availIn', s') =>
      if ret = ZRet.streamError then .errAbort [] [(flush, ret)]
      else if cap ≤ out.length then
        match drain T cap flush fuel s' availIn' with
        | .done o c s'' a => .done (out ++ o) ((flush, ret) :: c) s'' a
        | .errAbort o c => .errAbort (out ++ o) ((flush, ret) :: c)
        | .noFuel o c => .noFuel (out ++ o) ((flush, ret) :: c)
      else .done out [(flush, ret)] s' availIn'

/-- Outcome of one codec run: `processed` means the loop reached the
`bytesRead == 0` break and the "Processed" line (lines 87-88);
`codecError` means the early `return` on `Z_STREAM_ERROR`; `fuelOut`
marks fuel exhaustion of the embedding. -/
inductive RunOutcome where
  | processed
  | codecError
  | fuelOut
deriving DecidableEq, Repr

/-- Observable result of one codec run: the bytes written to the
destination stream, the chronological trace of transform invocations,
and the outcome. -/
structure RunResult where
  output : List Byte
  calls : List (ZFlush × ZRet)
  outcome : RunOutcome
deriving DecidableEq, Repr

/-- The outer read loop of `processFile` (lines 50-79).  Each iteration
reads up to `c` bytes from the remaining input (`inFile.read`, gcount =
`chunk.length`), breaks when zero bytes were read, computes the flush
mode for the compress direction from `inFile.eof()` — which is set
exactly when the read hit end of file, i.e. when fewer than `c` bytes
remained — runs the drain loop, and continues with the rest of the
stream.  Unconsumed `avail_in` is discarded at the end of a chunk, as
the source overwrites `next_in`/`avail_in` on the next read. -/
def codecGo {σ : Type} (T : Transform σ) (c cap dfuel : Nat) (isCompress : Bool) :
    Nat → σ → List Byte → RunResult
  | 0, _, _ => ⟨[], [], .fuelOut⟩
  | fuel + 1, s, rest =>
    let chunk := rest.take c
    if chunk.length = 0 then ⟨[], [], .processed⟩
    else
      let flush := if isCompress then
          (if rest.length < c then ZFlush.finish else ZFlush.noFlush)
        else ZFlush.noFlush
      match drain T cap flush dfuel s chunk with
      | .done out calls s' _ =>
        let r := codecGo T c cap dfuel isCompress fuel s' (rest.drop c)
        ⟨out ++ r.output, calls ++ r.calls, r.outcome⟩
      | .errAbort out calls => ⟨out, calls, .codecError⟩
      | .noFuel out calls => ⟨out, calls, .fuelOut⟩

/-- The fixed working-buffer size of `processFile`: `1024 * 1024` bytes
for both the input and the output buffer (lines 40-41). -/
def CHUNK : Nat := 1024 * 1024

/-- Big-endian encoding of a natural number into `w` bytes. -/
def natToBytesBE : Nat → Nat → List Byte
  | 0, _ => []
  | w + 1, v => natToBytesBE w (v / 256) ++ [v % 256]

/-- Big-endian decoding of a byte list into a natural number. -/
def bytesToNatBE (bs : List Byte) : Nat :=
  bs.foldl (fun a b => a * 256 + b) 0

/-- Modelled from the spec: the level indication the compressed header
carries (zlib's FLEVEL field); the compress output depends on the
requested level through this byte, and `Z_DEFAULT_COMPRESSION = -1`
maps to 0. -/
def levelCode (l : Int) : Nat := l.toNat % 256

/-- Modelled from the spec: the wire format of a finished compressed
stream — a two-byte header (magic byte and level code), an 8-byte
big-endian payload length, the payload, and a 4-byte trailing checksum
(sum of the payload bytes modulo 2^32).  The trailing checksum/footer
is emitted only when the transform is finished with `Z_FINISH`. -/
def encodePayload (l : Int) (p : List Byte) : List Byte :=
  120 :: levelCode l :: natToBytesBE 8 p.length ++ p ++
    natToBytesBE 4 (p.sum % 4294967296)

/-- State of the modelled deflate transform: input buffered but not yet
encoded, and — once `Z_FINISH` has been processed — the encoded bytes
still pending output. -/
structure DeflateState where
  buf : List Byte
  pending : Option (List Byte)
deriving DecidableEq, Repr

/-- Modelled from the spec: the deflate transform.  With `Z_NO_FLUSH` it
consumes all available input into its internal buffer and may produce no
output (pending compressed frames are internal state); with `Z_FINISH`
it encodes everything buffered plus the available input and emits the
encoded stream — including the trailing checksum/footer — across calls,
at most `cap` bytes per call, returning `Z_STREAM_END` once the last
byte has been handed out. -/
def deflateT (l : Int) : Transform DeflateState where
  init := ⟨[], none⟩
  step s availIn flush cap :=
    match s.pending with
    | some rem =>
      let out := rem.take cap
      let rem' := rem.drop cap
      ((if rem' = [] then ZRet.streamEnd else ZRet.ok), out, availIn,
        ⟨s.buf, some rem'⟩)
    | none =>
      match flush with
      | .noFlush => (ZRet.ok, [], [], ⟨s.buf ++ availIn, none⟩)
      | .finish =>
        let enc := encodePayload l (s.buf ++ availIn)
        let out := enc.take cap
        let rem := enc.drop cap
        ((if rem = [] then ZRet.streamEnd else ZRet.ok), out, [],
          ⟨[], some rem⟩)

/-- State of the modelled inflate transform: the raw stream bytes
received so far, the number of payload bytes already emitted, and
whether the stream has been fully decoded. -/
structure InflateState where
  got : List Byte
  emitted : Nat
  finished : Bool
deriving DecidableEq, Repr

/-- Modelled from the spec: the inflate transform.  It consumes all
available input, emits the decoded payload bytes not yet handed out (at
most `cap` per call), returns `Z_STREAM_END` when the stream is complete
and its trailing checksum matches, and `Z_DATA_ERROR` when the stream is
complete but corrupt.  An unfinished stream (no footer received) never
reaches `streamEnd`: its tail stays pending. -/
def inflateT : Transform InflateState where
  init := ⟨[], 0, false⟩
  step s availIn _flush cap :=
    let got := s.got ++ availIn
    if s.finished then (ZRet.streamEnd, [], [], ⟨got, s.emitted, true⟩)
    else if got.length < 10 then (ZRet.ok, [], [], ⟨got, s.emitted, false⟩)
    else
      let len := bytesToNatBE ((got.drop 2).take 8)
      let avail := (got.drop 10).take len
      let out := (avail.drop s.emitted).take cap
      let emitted' := s.emitted + out.length
      if emitted' = len ∧ 10 + len + 4 ≤ got.length then
        if bytesToNatBE ((got.drop (10 + len)).take 4) = avail.sum % 4294967296 then
          (ZRet.streamEnd, out, [], ⟨got, emitted', true⟩)
        else
          (ZRet.dataError, out, [], ⟨got, emitted', false⟩)
      else (ZRet.ok, out, [], ⟨got, emitted', false⟩)

/-- Drain-loop fuel and outer-loop fuel sufficient for the modelled
transforms on an input of length `n` (the encoded stream adds 14 bytes
of header and footer to the payload). -/
def fuelFor (n : Nat) : Nat := n + 16

/-- The codec part of `processFile` in the compress direction: chunk
size and output capacity `CHUNK`, deflate transform at the given level. -/
def runCompress (level : Int) (input : List Byte) : RunResult :=
  codecGo (deflateT level) CHUNK CHUNK (fuelFor input.length) true
    (fuelFor input.length) (deflateT level).init input

/-- The codec part of `processFile` in the decompress direction: chunk
size and output capacity `CHUNK`, inflate transform; the `level`
parameter of `processFile` is not consulted on this path (line 47 calls
`inflateInit(&zs)` with no level). -/
def runDecompress (input : List Byte) : RunResult :=
  codecGo inflateT CHUNK CHUNK (fuelFor input.length) false
    (fuelFor input.length) inflateT.init input

/-- The codec part of `processFile` (lines 43-88): direction dispatch of
the transform initialisation — `deflateInit(&zs, level)` when
compressing, `inflateInit(&zs)` otherwise — followed by the shared
read/drain loop. -/
def processFileRun (comp : Bool) (level : Int) (input : List Byte) : RunResult :=
  if comp then runCompress level input else runDecompress input

/-- Bytes a compress run writes to the destination. -/
def compressBytes (level : Int) (input : List Byte) : List Byte :=
  (runCompress level input).output

/-- Bytes a decompress run writes to the destination. -/
def decompressBytes (input : List Byte) : List Byte :=
  (runDecompress input).output

/-- Modelled from the spec: validity of a complete compressed stream in
the modelled wire format — correct magic byte, consistent length field,
full payload present, and matching trailing checksum.  Returns the
payload of a valid stream and `none` otherwise. -/
def decodeStream (s : List Byte) : Option (List Byte) :=
  if s.length < 14 then none
  else
    let len := bytesToNatBE ((s.drop 2).take 8)
    let payload := (s.drop 10).take len
    if s.length = 14 + len ∧ payload.length = len ∧ s.take 1 = [120] ∧
        bytesToNatBE ((s.drop (10 + len)).take 4) = payload.sum % 4294967296 then
      some payload
    else none

/-- `CompressionTask` (lines 17-22): one job of the batch. -/
structure CompressionTask where
  inputPath : String
  outputPath : String
  comp : Bool
  level : Int
deriving DecidableEq, Repr

/-- Task used to resolve out-of-range indices of a job list. -/
def defaultTask : CompressionTask := ⟨"", "", true, 0⟩

/-- The file system visible to `processFile`: which paths open as
readable byte streams, and which paths can be opened for writing. -/
structure FileSys where
  files : String → Option (List Byte)
  writable : String → Bool

/-- Per-job outcome, matching the diagnostics of `processFile`:
`srcOpenErr` — "Error opening input file" (lines 27-31); `dstOpenErr` —
"Error opening output file" (lines 34-38); `codecErr` — "Error during
compression/decompression" (lines 69-73); `processedOk` — the
"Processed" line (line 88); `fuelOut` — fuel exhaustion of the
embedding. -/
inductive JobOutcome where
  | srcOpenErr
  | dstOpenErr
  | codecErr
  | processedOk
  | fuelOut
deriving DecidableEq, Repr

/-- Map a codec-run outcome to the job outcome it is reported as. -/
def RunOutcome.toJobOutcome : RunOutcome → JobOutcome
  | .processed => .processedOk
  | .codecError => .codecErr
  | .fuelOut => .fuelOut

/-- `processFile` (lines 25-89) at the file-system level: opening the
source stream first (returning with a diagnostic and an unchanged file
system when it fails), then the destination stream (creating/truncating
the destination on success, returning with the file system unchanged on
failure), then running the codec loop; the destination ends up holding
exactly the bytes the codec run wrote, also when the run aborted on a
codec error (output written so far remains, no rollback). -/
def processFile (fs : FileSys) (t : CompressionTask) : JobOutcome × FileSys :=
  match fs.files t.inputPath with
  | none => (.srcOpenErr, fs)
  | some content =>
    if fs.writable t.outputPath then
      let r := processFileRun t.comp t.level content
      (r.outcome.toJobOutcome,
        ⟨fun p => if p = t.outputPath then some r.output else fs.files p,
          fs.writable⟩)
    else (.dstOpenErr, fs)

/-- Outcome of the job at index `i` of a batch, run against the file
system `fs`; jobs are independent (spec section 3), so each job's
outcome is a function of its own task alone. -/
def taskOutcome (fs : FileSys) (tasks : List CompressionTask) (i : Nat) : JobOutcome :=
  (processFile fs (tasks.getD i defaultTask)).1

/-- Shared dispatch state of `processFiles` (lines 91-116): the cursor
`currentTask` and, for the embedding, a log of the claims performed —
most recent first, each entry holding the claiming worker, the claimed
index, and the recorded result of executing that job. -/
structure PoolState (α : Type) where
  cursor : Nat
  log : List (Nat × Nat × α)

/-- One atomic claim by the worker loop of `processFiles` (lines
96-107): under the mutex `taskMutex`, a worker `w < numThreads` observes
`currentTask < tasks.size()`, reserves index `currentTask`, and
increments the cursor; outside the lock it then runs the job, whose
result `f taskIndex` is recorded in the log.  Claiming is the only
mutation of the shared dispatch state. -/
inductive PoolStep (N M : Nat) {α : Type} (f : Nat → α) :
    PoolState α → PoolState α → Prop where
  | claim (w : Nat) (hw : w < N) (s : PoolState α) (h : s.cursor < M) :
      PoolStep N M f s ⟨s.cursor + 1, (w, s.cursor, f s.cursor) :: s.log⟩

/-- States reachable by interleaving the claims of the `N` workers of
`processFiles` over a job list of length `M`, starting from the initial
state `currentTask = 0` (line 93) with an empty log. -/
inductive PoolReach (N M : Nat) {α : Type} (f : Nat → α) : PoolState α → Prop where
  | init : PoolReach N M f ⟨0, []⟩
  | next {s s' : PoolState α} : PoolReach N M f s → PoolStep N M f s s' →
      PoolReach N M f s'

/-- The trivial per-job result used when only the claimed indices
matter. -/
def unitJob : Nat → Unit := fun _ => ()

/-- One worker of `processFiles` run to completion under a sequential
schedule: from cursor position `cursor` it claims and runs every index
up to `M`, then observes `currentTask >= tasks.size()` and returns
(lines 97-106).  The fuel argument bounds the iterations of the
embedding; `M - cursor` iterations occur. -/
def workerRun : Nat → Nat → Nat → List Nat × Nat
  | 0, _, cursor => ([], cursor)
  | fuel + 1, M, cursor =>
    if cursor < M then
      let r := workerRun fuel M (cursor + 1)
      (cursor :: r.1, r.2)
    else ([], cursor)

/-- `processFiles` (lines 109-115) under the sequential schedule in
which each spawned worker runs to completion before the next starts:
`N` workers are spawned in order, each drains the queue from the cursor
position the previous one left, and the pool joins them all.  Returns
the per-worker lists of claimed indices.  With `N = 0` no worker is
spawned and the function returns at the join loop with nothing
claimed. -/
def poolRun : Nat → Nat → Nat → List (List Nat)
  | 0, _, _ => []
  | n + 1, M, cursor =>
    let w := workerRun M M cursor
    w.1 :: poolRun n M w.2

/-- The per-worker claimed indices of `processFiles` with `N` workers
over a job list of length `M`, sequential schedule. -/
def processFilesClaims (N M : Nat) : List (List Nat) := poolRun N M 0

/-- The claimed indices of a pool state, in claim order (most recent
first). -/
def logIndices {α : Type} (s : PoolState α) : List Nat :=
  s.log.map (fun e => e.2.1)

/-- A transform that reports `Z_STREAM_ERROR` on every invocation; used
to exercise the abort path of the drain loop. -/
def errT : Transform Unit where
  init := ()
  step s a _ _ := (ZRet.streamError, [], a, s)

/-! ### Basic facts about the drain loop and the outer loop -/

/-- One drain iteration that leaves the output buffer with free space
(`zs.avail_out != 0`, i.e. fewer than `cap` bytes produced — including
zero bytes) is the last: the do-while exits immediately. -/
theorem drain_succ_of_notFull {σ : Type} (T : Transform σ) (cap : Nat) (flush : ZFlush)
    (fuel : Nat) (s s' : σ) (availIn availIn' out : List Byte) (ret : ZRet)
    (hstep : T.step s availIn flush cap = (ret, out, availIn', s'))
    (hne : ret ≠ ZRet.streamError) (hlt : out.length < cap) :
    drain T cap flush (fuel + 1) s availIn = .done out [(flush, ret)] s' availIn' := by
  simp [drain, hstep, hne, Nat.not_le.mpr hlt]

/-- One drain iteration that fills the output buffer completely
(`zs.avail_out == 0`) continues the do-while with the updated transform
state and the input still unconsumed. -/
theorem drain_succ_of_full {σ : Type} (T : Transform σ) (cap : Nat) (flush : ZFlush)
    (fuel : Nat) (s s' : σ) (availIn availIn' out : List Byte) (ret : ZRet)
    (hstep : T.step s availIn flush cap = (ret, out, availIn', s'))
    (hne : ret ≠ ZRet.streamError) (hfull : cap ≤ out.length) :
    drain T cap flush (fuel + 1) s availIn =
      (match drain T cap flush fuel s' availIn' with
       | .done o c s'' a => .done (out ++ o) ((flush, ret) :: c) s'' a
       | .errAbort o c => .errAbort (out ++ o) ((flush, ret) :: c)
       | .noFuel o c => .noFuel (out ++ o) ((flush, ret) :: c)) := by
  simp [drain, hstep, hne, hfull]

/-- An iteration on which the transform reports `Z_STREAM_ERROR` aborts
the drain loop at once: nothing of that iteration is written. -/
theorem drain_succ_of_streamError {σ : Type} (T : Transform σ) (cap : Nat) (flush : ZFlush)
    (fuel : Nat) (s s' : σ) (availIn availIn' out : List Byte)
    (hstep : T.step s availIn flush cap = (ZRet.streamError, out, availIn', s')) :
    drain T cap flush (fuel + 1) s availIn =
      .errAbort [] [(flush, ZRet.streamError)] := by
  simp [drain, hstep]

/-- With nothing left to read, the outer loop reads zero bytes, breaks
immediately, makes no transform call and reports the job processed. -/
theorem codecGo_nil {σ : Type} (T : Transform σ) (c cap dfuel : Nat)
    (isCompress : Bool) (fuel : Nat) (s : σ) :
    codecGo T c cap dfuel isCompress (fuel + 1) s [] = ⟨[], [], .processed⟩ := by
  simp [codecGo]

/-! ### Invariants of the dispatch state machine -/

/-- Safety invariant of the claiming protocol: in every reachable state
the cursor never exceeds the job count, the claimed indices are exactly
`0, …, cursor-1` (each exactly once, latest first), and every log entry
was made by an existing worker and records the result of the job it
claimed. -/
theorem poolReach_invariant {α : Type} (N M : Nat) (f : Nat → α) (s : PoolState α)
    (h : PoolReach N M f s) :
    s.cursor ≤ M ∧ logIndices s = (List.range s.cursor).reverse ∧
      ∀ e ∈ s.log, e.1 < N ∧ e.2.2 = f e.2.1 := by
  induction h with
  | init => simp [logIndices]
  | next _ hs ih =>
    rcases hs with ⟨w, hw, s, hcur⟩
    refine ⟨hcur, ?_, ?_⟩
    · simp only [logIndices, List.map_cons] at *
      rw [List.range_succ, List.reverse_append, List.reverse_singleton, ih.2.1]
      rfl
    · intro e he
      rcases List.mem_cons.mp he with rfl | he
      · exact ⟨hw, rfl⟩
      · exact ih.2.2 e he

/-- As long as at least one worker exists, a state with every job
claimed is reachable: worker 0 can claim each index in turn. -/
theorem poolReach_exists {α : Type} (N M : Nat) (f : Nat → α) (hN : 1 ≤ N) :
    ∃ s : PoolState α, PoolReach N M f s ∧ s.cursor = M := by
  have key : ∀ k, k ≤ M → ∃ s : PoolState α, PoolReach N M f s ∧ s.cursor = k := by
    intro k
    induction k with
    | zero => exact fun _ => ⟨⟨0, []⟩, .init, rfl⟩
    | succ k ih =>
      intro hk
      obtain ⟨s, hs, hcur⟩ := ih (Nat.le_of_succ_le hk)
      refine ⟨⟨s.cursor + 1, (0, s.cursor, f s.cursor) :: s.log⟩,
        .next hs (.claim 0 hN s ?_), by simp [hcur]⟩
      omega
  exact key M (Nat.le_refl M)

/-! ### The sequential schedule of `processFiles` -/

/-- A worker that observes the cursor at or past the end of the job list
claims nothing and returns. -/
theorem workerRun_done (fuel M cursor : Nat) (h : M ≤ cursor) :
    workerRun fuel M cursor = ([], cursor) := by
  cases fuel with
  | zero => rfl
  | succ fuel => simp [workerRun, Nat.not_lt.mpr h]

/-- A worker with enough fuel drains the whole queue: it claims every
index from its starting cursor up to `M` and leaves the cursor at `M`. -/
theorem workerRun_drains (fuel : Nat) : ∀ M cursor : Nat, M - cursor ≤ fuel → cursor ≤ M →
    workerRun fuel M cursor = (List.range' cursor (M - cursor), M) := by
  induction fuel with
  | zero =>
    intro M cursor h1 h2
    have : cursor = M := by omega
    subst this
    simp [workerRun, Nat.sub_self]
  | succ fuel ih =>
    intro M cursor h1 h2
    by_cases hlt : cursor < M
    · have heq : M - cursor = (M - (cursor + 1)) + 1 := by omega
      simp only [workerRun, if_pos hlt, ih M (cursor + 1) (by omega) (by omega)]
      rw [heq, List.range'_succ]
    · have : cursor = M := by omega
      subst this
      simp [workerRun, Nat.sub_self]

/-- Workers spawned after the queue is exhausted find no work and exit
immediately. -/
theorem poolRun_exhausted (n M : Nat) : poolRun n M M = List.replicate n [] := by
  induction n with
  | zero => rfl
  | succ n ih =>
    simp only [poolRun, workerRun_done M M M (Nat.le_refl M), ih]
    rfl

/-- With at least one worker, the sequential schedule of `processFiles`
claims exactly the indices `0, …, M-1`: the first worker drains the
queue and every further worker exits with no work. -/
theorem processFilesClaims_flatten (N M : Nat) (hN : 1 ≤ N) :
    (processFilesClaims N M).flatten = List.range M := by
  obtain ⟨n, rfl⟩ : ∃ n, N = n + 1 := ⟨N - 1, by omega⟩
  have hw : workerRun M M 0 = (List.range' 0 M, M) := by
    simpa using workerRun_drains M M 0 (by omega) (Nat.zero_le M)
  simp [processFilesClaims, poolRun, hw, poolRun_exhausted, List.range_eq_range']

/-! ### The compress loop at exact chunk multiples -/

/-- Reading a chunk while at least a full buffer of input remains:
`inFile.read` fills the buffer completely, so `inFile.eof()` stays
false and `deflate` is invoked with `Z_NO_FLUSH`; the modelled deflate
buffers the chunk and produces no output, and the loop moves on to the
rest of the stream. -/
theorem codecGo_deflate_fullChunk (l : Int) (m n : Nat) (buf rest : List Byte)
    (hlen : CHUNK ≤ rest.length) :
    codecGo (deflateT l) CHUNK CHUNK (m + 1) true (n + 1) ⟨buf, none⟩ rest =
      { output := (codecGo (deflateT l) CHUNK CHUNK (m + 1) true n
          ⟨buf ++ rest.take CHUNK, none⟩ (rest.drop CHUNK)).output,
        calls := (ZFlush.noFlush, ZRet.ok) :: (codecGo (deflateT l) CHUNK CHUNK (m + 1) true n
          ⟨buf ++ rest.take CHUNK, none⟩ (rest.drop CHUNK)).calls,
        outcome := (codecGo (deflateT l) CHUNK CHUNK (m + 1) true n
          ⟨buf ++ rest.take CHUNK, none⟩ (rest.drop CHUNK)).outcome } := by
  have hCHUNK : 0 < CHUNK := by decide
  have hne : ¬ ((rest.take CHUNK).length = 0) := by
    simp only [List.length_take]
    omega
  have heof : ¬ rest.length < CHUNK := Nat.not_lt.mpr hlen
  have hdrain : drain (deflateT l) CHUNK .noFlush (m + 1) ⟨buf, none⟩ (rest.take CHUNK) =
      .done [] [(.noFlush, .ok)] ⟨buf ++ rest.take CHUNK, none⟩ [] :=
    drain_succ_of_notFull _ _ _ _ _ _ _ _ _ _ rfl (by decide)
      (by simpa using hCHUNK)
  simp only [codecGo, if_neg hne, if_neg heof, if_true, hdrain,
    List.nil_append, List.singleton_append]

/-- The compress run on an input of exactly one full chunk: `deflate` is
called exactly once, with `Z_NO_FLUSH` — never with `Z_FINISH` — the
destination receives zero bytes (everything stays buffered inside the
transform and is discarded by `deflateEnd`), and the job is still
reported processed. -/
theorem runCompress_replicate_chunk (l : Int) :
    runCompress l (List.replicate CHUNK 0) =
      ⟨[], [(ZFlush.noFlush, ZRet.ok)], .processed⟩ := by
  have hlen : (List.replicate CHUNK (0 : Byte)).length = CHUNK := List.length_replicate _ _
  have hdropAux : ∀ xs : List Byte, xs.length = CHUNK → xs.drop CHUNK = [] := by
    intro xs h
    rw [← h]
    exact List.drop_length _
  have hdrop := hdropAux _ hlen
  have hf : fuelFor CHUNK = (CHUNK + 15) + 1 := by
    show CHUNK + 16 = CHUNK + 15 + 1
    omega
  have h15 : CHUNK + 15 = (CHUNK + 14) + 1 := by omega
  have hinit : (deflateT l).init = (⟨[], none⟩ : DeflateState) := rfl
  unfold runCompress
  rw [hlen, hf, hinit]
  rw [codecGo_deflate_fullChunk l (CHUNK + 15) (CHUNK + 15) [] _ (by rw [hlen])]
  rw [hdrop, h15, codecGo_nil]

/-! ### Sanity checks of the codec model -/

/-- Round trip on a small input (shorter than one chunk): the final read
hits end of file, `Z_FINISH` is issued, the stream carries its footer,
and decompression restores the input. -/
theorem sanity_roundtrip_small :
    decompressBytes (compressBytes 6 [1, 2, 3]) = [1, 2, 3] ∧
    decodeStream (compressBytes 6 [1, 2, 3]) = some [1, 2, 3] := by decide

/-- The compress output depends on the requested level (through the
header's level byte), so the level-noninterference statement for the
decompress direction is not vacuous. -/
theorem sanity_level_matters :
    compressBytes 1 [5] ≠ compressBytes 9 [5] := by decide

/-! ### Claim theorems -/

/-- Claim C1 (code bug at the failing input): for an input of exactly one
full chunk (1 MiB), the round trip fails — the compress run never issues
`Z_FINISH` (the read of a full buffer does not set `inFile.eof()`, and
the following zero-byte read breaks out of the loop), so the whole
payload stays buffered in the transform, the destination receives zero
bytes, and decompressing that output yields the empty sequence, not the
original bytes. -/
theorem roundtrip_fails_at_chunk_multiple :
    (runDecompress (runCompress 0 (List.replicate CHUNK 0)).output).output ≠
      List.replicate CHUNK 0 := by
  have h1 : (runCompress 0 (List.replicate CHUNK 0)).output = [] :=
    congrArg RunResult.output (runCompress_replicate_chunk 0)
  rw [h1]
  have h2 : (runDecompress []).output = [] := by decide
  rw [h2]
  intro h
  have hCHUNK : 0 < CHUNK := by decide
  have hlen := congrArg List.length h
  simp only [List.length_nil, List.length_replicate] at hlen
  omega

/-- Claim C4 (code bug at the failing input): on an input whose length is
exactly the chunk buffer size, the transform is invoked exactly once,
with `Z_NO_FLUSH` — the finish signal is never sent on the final chunk —
and the job is nevertheless reported processed. -/
theorem finish_never_signaled_at_chunk_multiple :
    (runCompress 0 (List.replicate CHUNK 0)).calls = [(ZFlush.noFlush, ZRet.ok)] ∧
    (runCompress 0 (List.replicate CHUNK 0)).outcome = RunOutcome.processed := by
  rw [runCompress_replicate_chunk]
  exact ⟨rfl, rfl⟩

/-- Claim C6 (code bug at the failing input): for an empty input the loop
breaks before any transform call — the transform is opened and closed
but never finished — so the destination receives zero bytes, which is
not a valid compressed stream in the modelled format (no header, no
footer); the zero-byte output does decompress to zero bytes under this
tool's own decompress path. -/
theorem empty_input_stream_never_finished :
    (runCompress 0 []).calls = [] ∧
    compressBytes 0 [] = [] ∧
    decodeStream (compressBytes 0 []) = none ∧
    decompressBytes (compressBytes 0 []) = [] := by decide

/-- Claim C9: the decompress path never consults the level parameter —
`inflateInit` takes no level (line 47) — so two decompress runs of the
same input with different levels produce identical results, both at the
codec level and at the file-system level of a whole job. -/
theorem decompress_level_noninterference (l1 l2 : Int) (input : List Byte) :
    processFileRun false l1 input = processFileRun false l2 input ∧
    ∀ (fs : FileSys) (inp outp : String),
      processFile fs ⟨inp, outp, false, l1⟩ = processFile fs ⟨inp, outp, false, l2⟩ := by
  have hrun : ∀ c : List Byte, processFileRun false l1 c = processFileRun false l2 c := by
    intro c
    simp only [processFileRun, Bool.false_eq_true, if_false]
  refine ⟨hrun input, fun fs inp outp => ?_⟩
  cases hf : fs.files inp with
  | none => simp [processFile, hf]
  | some content => simp [processFile, hf, hrun]

/-- Claim C10: when the source stream cannot be opened, `processFile`
returns before the `ofstream` constructor runs: the outcome is the
source-open diagnostic and the file system — in particular the
destination path's prior content and writability — is left exactly as it
was. -/
theorem src_open_failure_leaves_fs (fs : FileSys) (t : CompressionTask)
    (h : fs.files t.inputPath = none) :
    processFile fs t = (JobOutcome.srcOpenErr, fs) := by
  simp [processFile, h]

/-- Concrete file system for witnesses: one readable file, everything
writable. -/
def fsW : FileSys :=
  ⟨fun p => if p = "a.txt" then some [1, 2] else none, fun _ => true⟩

/-- Witness for C10 at a concrete input: a task whose source is absent
from `fsW`. -/
theorem src_open_failure_leaves_fs_witness :
    fsW.files "missing.bin" = none ∧
    processFile fsW ⟨"missing.bin", "missing.gz", true, 6⟩ =
      (JobOutcome.srcOpenErr, fsW) :=
  ⟨rfl, src_open_failure_leaves_fs fsW ⟨"missing.bin", "missing.gz", true, 6⟩ rfl⟩

/-- Claim C7 counterexample: `processFiles` performs no validation of the
worker count — with zero workers and a nonempty job list it spawns no
worker, claims nothing, and returns normally from the join loop: the
pool silently completes with no jobs processed, instead of failing fast
before dispatch. -/
theorem zero_workers_silently_complete :
    processFilesClaims 0 1 = [] ∧
    (processFilesClaims 0 1).flatten ≠ List.range 1 := by decide

/-- Claim C7 as amended: `processFiles` does not validate `numThreads`;
with zero workers it returns normally having claimed no job, while with
at least one worker every job index is claimed. -/
theorem worker_count_unvalidated (N M : Nat) (hN : 1 ≤ N) :
    processFilesClaims 0 M = [] ∧
    (processFilesClaims N M).flatten = List.range M :=
  ⟨rfl, processFilesClaims_flatten N M hN⟩

/-- Witness for the amended C7 at concrete worker and job counts. -/
theorem worker_count_unvalidated_witness :
    processFilesClaims 0 3 = [] ∧
    (processFilesClaims 2 3).flatten = List.range 3 :=
  worker_count_unvalidated 2 3 (by decide)

/-- A complete modelled stream for the payload `[7]` whose trailing
checksum byte has been corrupted (8 instead of 7). -/
def corruptStream : List Byte :=
  [120, 0, 0, 0, 0, 0, 0, 0, 0, 1, 7, 0, 0, 0, 8]

/-- Claim C5 counterexample: decompressing a corrupt stream makes the
transform return `Z_DATA_ERROR` — an error return — yet the run does not
fail fast: the driver only tests for `Z_STREAM_ERROR` (line 69), keeps
going, and reports the job processed. -/
theorem dataError_reported_processed :
    (ZFlush.noFlush, ZRet.dataError) ∈ (runDecompress corruptStream).calls ∧
    (runDecompress corruptStream).outcome = RunOutcome.processed ∧
    (runDecompress corruptStream).output = [7] := by decide

/-- Claim C2: under any interleaving of the workers' claim operations,
every step strictly increases the shared cursor and consists exactly of
one worker claiming the current index (claiming is the only mutation of
the dispatch state); in every reachable state with the cursor at the end
of the job list the claimed indices are exactly `0, …, M-1`, each
claimed exactly once, by exactly one worker; and with at least one
worker such a completed state is reached. -/
theorem exactly_once_claiming (N M : Nat) (hN : 1 ≤ N) :
    (∀ s s' : PoolState Unit, PoolStep N M unitJob s s' →
        s.cursor < s'.cursor ∧ ∃ w, w < N ∧ s'.cursor = s.cursor + 1 ∧
          s'.log = (w, s.cursor, ()) :: s.log) ∧
    (∀ s : PoolState Unit, PoolReach N M unitJob s → M ≤ s.cursor →
        logIndices s = (List.range M).reverse) ∧
    (∃ s : PoolState Unit, PoolReach N M unitJob s ∧ s.cursor = M ∧
        logIndices s = (List.range M).reverse) := by
  refine ⟨?_, ?_, ?_⟩
  · intro s s' hstep
    rcases hstep with ⟨w, hw, s, h⟩
    exact ⟨Nat.lt_succ_self _, w, hw, rfl, rfl⟩
  · intro s hr hM
    have hinv := poolReach_invariant N M unitJob s hr
    have hcur : s.cursor = M := Nat.le_antisymm hinv.1 hM
    rw [hinv.2.1, hcur]
  · obtain ⟨s, hs, hcur⟩ := poolReach_exists N M unitJob hN
    have hinv := poolReach_invariant N M unitJob s hs
    exact ⟨s, hs, hcur, by rw [hinv.2.1, hcur]⟩

/-- Witness for C2 at two workers and three jobs. -/
theorem exactly_once_claiming_witness :
    (1 : Nat) ≤ 2 ∧
    ∃ s : PoolState Unit, PoolReach 2 3 unitJob s ∧ s.cursor = 3 ∧
      logIndices s = (List.range 3).reverse :=
  ⟨by decide, (exactly_once_claiming 2 3 (by decide)).2.2⟩

/-- Claim C3: a job whose source cannot be opened ends with the
source-open diagnostic and is skipped; a job whose destination cannot be
opened ends with the destination-open diagnostic and is skipped; each
job's outcome is a function of that job's task alone, so a failing job
leaves every other job's outcome exactly as it would have been without
it; and the pool still runs to completion, claiming and executing every
job of the batch exactly once with its own recorded outcome. -/
theorem failing_job_isolated (fs : FileSys) (tasks : List CompressionTask) (i N : Nat)
    (hfail : fs.files (tasks.getD i defaultTask).inputPath = none) (hN : 1 ≤ N) :
    taskOutcome fs tasks i = JobOutcome.srcOpenErr ∧
    (∀ (t : CompressionTask) (content : List Byte),
        fs.files t.inputPath = some content → fs.writable t.outputPath = false →
        (processFile fs t).1 = JobOutcome.dstOpenErr) ∧
    (∀ (tasks' : List CompressionTask) (j j' : Nat),
        tasks'.getD j' defaultTask = tasks.getD j defaultTask →
        taskOutcome fs tasks' j' = taskOutcome fs tasks j) ∧
    (∃ s : PoolState JobOutcome,
        PoolReach N tasks.length (taskOutcome fs tasks) s ∧
        s.cursor = tasks.length ∧
        logIndices s = (List.range tasks.length).reverse ∧
        ∀ e ∈ s.log, e.2.2 = taskOutcome fs tasks e.2.1) := by
  refine ⟨?_, ?_, ?_, ?_⟩
  · unfold taskOutcome processFile
    rw [hfail]
  · intro t content hsome hw
    simp [processFile, hsome, hw]
  · intro tasks' j j' hag
    unfold taskOutcome
    rw [hag]
  · obtain ⟨s, hs, hcur⟩ := poolReach_exists N tasks.length (taskOutcome fs tasks) hN
    have hinv := poolReach_invariant N tasks.length (taskOutcome fs tasks) s hs
    exact ⟨s, hs, hcur, by rw [hinv.2.1, hcur], fun e he => (hinv.2.2 e he).2⟩

/-- Concrete batch for the C3 witness: the first job's source is absent
from `fsW`, the second job's source is readable. -/
def tasksW : List CompressionTask :=
  [⟨"missing.bin", "m.gz", true, 6⟩, ⟨"a.txt", "a.gz", true, 6⟩]

/-- Witness for C3 at a concrete file system and batch. -/
theorem failing_job_isolated_witness :
    fsW.files (tasksW.getD 0 defaultTask).inputPath = none ∧
    taskOutcome fsW tasksW 0 = JobOutcome.srcOpenErr ∧
    (∃ s : PoolState JobOutcome,
        PoolReach 2 tasksW.length (taskOutcome fsW tasksW) s ∧
        s.cursor = tasksW.length ∧
        logIndices s = (List.range tasksW.length).reverse ∧
        ∀ e ∈ s.log, e.2.2 = taskOutcome fsW tasksW e.2.1) := by
  have h := failing_job_isolated fsW tasksW 0 2 rfl (by decide)
  exact ⟨rfl, h.1, h.2.2.2⟩

/-! ### Fail-fast on `Z_STREAM_ERROR` -/

/-- Trace discipline of the drain loop: a normal exit or fuel exhaustion
records no `Z_STREAM_ERROR` return, and an abort records exactly one —
as the final invocation, after which the loop makes no further call. -/
theorem drain_calls_streamError {σ : Type} (T : Transform σ) (cap : Nat) (flush : ZFlush) :
    ∀ (fuel : Nat) (s : σ) (availIn : List Byte),
      (∀ out calls s' a, drain T cap flush fuel s availIn = .done out calls s' a →
          ∀ p ∈ calls, p.2 ≠ ZRet.streamError) ∧
      (∀ out calls, drain T cap flush fuel s availIn = .noFuel out calls →
          ∀ p ∈ calls, p.2 ≠ ZRet.streamError) ∧
      (∀ out calls, drain T cap flush fuel s availIn = .errAbort out calls →
          ∃ pre, calls = pre ++ [(flush, ZRet.streamError)] ∧
            ∀ p ∈ pre, p.2 ≠ ZRet.streamError) := by
  intro fuel
  induction fuel with
  | zero =>
    intro s availIn
    refine ⟨?_, ?_, ?_⟩
    · intro out calls s' a h
      simp [drain] at h
    · intro out calls h
      simp only [drain, DrainOut.noFuel.injEq] at h
      rw [← h.2]
      simp
    · intro out calls h
      simp [drain] at h
  | succ fuel ih =>
    intro s availIn
    rcases hstep : T.step s availIn flush cap with ⟨ret, out, a2, s2⟩
    by_cases hret : ret = ZRet.streamError
    · subst hret
      refine ⟨?_, ?_, ?_⟩
      · intro o c s' a h
        rw [drain_succ_of_streamError T cap flush fuel s s2 availIn a2 out hstep] at h
        cases h
      · intro o c h
        rw [drain_succ_of_streamError T cap flush fuel s s2 availIn a2 out hstep] at h
        cases h
      · intro o c h
        rw [drain_succ_of_streamError T cap flush fuel s s2 availIn a2 out hstep] at h
        cases h
        exact ⟨[], rfl, by simp⟩
    · by_cases hfull : cap ≤ out.length
      · have heq := drain_succ_of_full T cap flush fuel s s2 availIn a2 out ret hstep hret hfull
        rcases hrec : drain T cap flush fuel s2 a2 with ⟨o, c, s3, a3⟩ | ⟨o, c⟩ | ⟨o, c⟩ <;>
          rw [hrec] at heq
        · refine ⟨?_, ?_, ?_⟩
          · intro o' c' s' a' h
            rw [heq] at h
            cases h
            intro p hp
            rcases List.mem_cons.mp hp with rfl | hp
            · exact hret
            · exact (ih s2 a2).1 o c s3 a3 hrec p hp
          · intro o' c' h
            rw [heq] at h
            cases h
          · intro o' c' h
            rw [heq] at h
            cases h
        · refine ⟨?_, ?_, ?_⟩
          · intro o' c' s' a' h
            rw [heq] at h
            cases h
          · intro o' c' h
            rw [heq] at h
            cases h
          · intro o' c' h
            rw [heq] at h
            cases h
            obtain ⟨pre, hpre, hclean⟩ := (ih s2 a2).2.2 o c hrec
            refine ⟨(flush, ret) :: pre, by rw [hpre]; rfl, ?_⟩
            intro p hp
            rcases List.mem_cons.mp hp with rfl | hp
            · exact hret
            · exact hclean p hp
        · refine ⟨?_, ?_, ?_⟩
          · intro o' c' s' a' h
            rw [heq] at h
            cases h
          · intro o' c' h
            rw [heq] at h
            cases h
            intro p hp
            rcases List.mem_cons.mp hp with rfl | hp
            · exact hret
            · exact (ih s2 a2).2.1 o c hrec p hp
          · intro o' c' h
            rw [heq] at h
            cases h
      · have heq := drain_succ_of_notFull T cap flush fuel s s2 availIn a2 out ret hstep hret
          (Nat.lt_of_not_le hfull)
        refine ⟨?_, ?_, ?_⟩
        · intro o' c' s' a' h
          rw [heq] at h
          cases h
          intro p hp
          rcases List.mem_cons.mp hp with rfl | hp
          · exact hret
          · cases hp
        · intro o' c' h
          rw [heq] at h
          cases h
        · intro o' c' h
          rw [heq] at h
          cases h

/-- Trace discipline of the whole codec run: the run ends in
`codecError` exactly when some invocation returned `Z_STREAM_ERROR`, and
in that case the offending invocation is the last one made — no further
chunk or drain iteration is processed for the job. -/
theorem codecGo_calls_streamError {σ : Type} (T : Transform σ) (c cap dfuel : Nat)
    (isCompress : Bool) :
    ∀ (fuel : Nat) (s : σ) (rest : List Byte),
      ((codecGo T c cap dfuel isCompress fuel s rest).outcome = RunOutcome.codecError →
        ∃ pre f, (codecGo T c cap dfuel isCompress fuel s rest).calls =
            pre ++ [(f, ZRet.streamError)] ∧ ∀ p ∈ pre, p.2 ≠ ZRet.streamError) ∧
      ((codecGo T c cap dfuel isCompress fuel s rest).outcome ≠ RunOutcome.codecError →
        ∀ p ∈ (codecGo T c cap dfuel isCompress fuel s rest).calls,
          p.2 ≠ ZRet.streamError) := by
  intro fuel
  induction fuel with
  | zero =>
    intro s rest
    constructor
    · intro h
      simp [codecGo] at h
    · intro _ p hp
      simp [codecGo] at hp
  | succ fuel ih =>
    intro s rest
    by_cases hchunk : (rest.take c).length = 0
    · constructor
      · intro h
        simp [codecGo, hchunk] at h
      · intro _ p hp
        simp [codecGo, hchunk] at hp
    · rcases hdrain : drain T cap
          (if isCompress then (if rest.length < c then ZFlush.finish else ZFlush.noFlush)
            else ZFlush.noFlush) dfuel s (rest.take c) with ⟨o, cs, s2, a2⟩ | ⟨o, cs⟩ | ⟨o, cs⟩
      · have hclean : ∀ p ∈ cs, p.2 ≠ ZRet.streamError :=
          (drain_calls_streamError T cap _ dfuel s (rest.take c)).1 o cs s2 a2 hdrain
        constructor
        · intro h
          simp only [codecGo, if_neg hchunk, hdrain] at h ⊢
          obtain ⟨pre, f, hc, hcl⟩ := (ih s2 (rest.drop c)).1 h
          refine ⟨cs ++ pre, f, ?_, ?_⟩
          · rw [hc, List.append_assoc]
          · intro p hp
            rcases List.mem_append.mp hp with hp | hp
            · exact hclean p hp
            · exact hcl p hp
        · intro h
          simp only [codecGo, if_neg hchunk, hdrain] at h ⊢
          intro p hp
          rcases List.mem_append.mp hp with hp | hp
          · exact hclean p hp
          · exact (ih s2 (rest.drop c)).2 h p hp
      · constructor
        · intro h
          simp only [codecGo, if_neg hchunk, hdrain] at h ⊢
          obtain ⟨pre, hc, hcl⟩ :=
            (drain_calls_streamError T cap _ dfuel s (rest.take c)).2.2 o cs hdrain
          exact ⟨pre, _, hc, hcl⟩
        · intro h
          simp only [codecGo, if_neg hchunk, hdrain] at h
          exact absurd rfl h
      · constructor
        · intro h
          simp only [codecGo, if_neg hchunk, hdrain] at h
          exact RunOutcome.noConfusion h
        · intro h
          simp only [codecGo, if_neg hchunk, hdrain] at h ⊢
          exact (drain_calls_streamError T cap _ dfuel s (rest.take c)).2.1 o cs hdrain

/-- Claim C5 as amended: whenever any invocation of the transform during
a codec run returns `Z_STREAM_ERROR`, the run fails fast — the outcome
is the codec-error diagnostic (the job is not reported processed), the
offending invocation is the last one, and no earlier invocation had
returned `Z_STREAM_ERROR`.  (Other error returns such as `Z_DATA_ERROR`
do not abort the run, see the counterexample.) -/
theorem stream_error_aborts_job {σ : Type} (T : Transform σ) (c cap dfuel fuel : Nat)
    (isCompress : Bool) (s : σ) (rest : List Byte)
    (hse : ∃ p ∈ (codecGo T c cap dfuel isCompress fuel s rest).calls,
        p.2 = ZRet.streamError) :
    (codecGo T c cap dfuel isCompress fuel s rest).outcome = RunOutcome.codecError ∧
    ∃ pre f, (codecGo T c cap dfuel isCompress fuel s rest).calls =
        pre ++ [(f, ZRet.streamError)] ∧ ∀ p ∈ pre, p.2 ≠ ZRet.streamError := by
  obtain ⟨p, hp, hpse⟩ := hse
  have h := codecGo_calls_streamError T c cap dfuel isCompress fuel s rest
  by_cases hout :
      (codecGo T c cap dfuel isCompress fuel s rest).outcome = RunOutcome.codecError
  · exact ⟨hout, h.1 hout⟩
  · exact absurd hpse (h.2 hout p hp)

/-- Witness for the amended C5: a transform that reports
`Z_STREAM_ERROR` on its first invocation, run over a one-byte input. -/
theorem stream_error_aborts_job_witness :
    (∃ p ∈ (codecGo errT 4 4 2 false 2 () [1]).calls, p.2 = ZRet.streamError) ∧
    (codecGo errT 4 4 2 false 2 () [1]).outcome = RunOutcome.codecError ∧
    ∃ pre f, (codecGo errT 4 4 2 false 2 () [1]).calls =
        pre ++ [(f, ZRet.streamError)] ∧ ∀ p ∈ pre, p.2 ≠ ZRet.streamError :=
  ⟨by decide, stream_error_aborts_job errT 4 4 2 2 false () [1] (by decide)⟩

/-! ### Termination of the drain loop for the modelled transforms -/

/-- One deflate invocation while encoded output is pending. -/
theorem deflateT_step_pending (l : Int) (buf rem availIn : List Byte) (flush : ZFlush)
    (cap : Nat) :
    (deflateT l).step ⟨buf, some rem⟩ availIn flush cap =
      ((if rem.drop cap = [] then ZRet.streamEnd else ZRet.ok), rem.take cap, availIn,
        ⟨buf, some (rem.drop cap)⟩) := rfl

/-- One deflate invocation with `Z_NO_FLUSH`: input is buffered, nothing
is emitted. -/
theorem deflateT_step_noFlush (l : Int) (buf availIn : List Byte) (cap : Nat) :
    (deflateT l).step ⟨buf, none⟩ availIn .noFlush cap =
      (ZRet.ok, [], [], ⟨buf ++ availIn, none⟩) := rfl

/-- One deflate invocation with `Z_FINISH`: everything buffered is
encoded and emission starts. -/
theorem deflateT_step_finish (l : Int) (buf availIn : List Byte) (cap : Nat) :
    (deflateT l).step ⟨buf, none⟩ availIn .finish cap =
      ((if (encodePayload l (buf ++ availIn)).drop cap = [] then ZRet.streamEnd else ZRet.ok),
        (encodePayload l (buf ++ availIn)).take cap, [],
        ⟨[], some ((encodePayload l (buf ++ availIn)).drop cap)⟩) := rfl

/-- The return code of an emitting deflate invocation is never the
internal-error code. -/
theorem ite_ret_ne_streamError (X : List Byte) :
    (if X = [] then ZRet.streamEnd else ZRet.ok) ≠ ZRet.streamError := by
  split
  · decide
  · decide

/-- The drain loop over a deflate state with pending encoded output
terminates: each full-buffer iteration hands out `cap` more bytes of the
pending stream, whose length strictly decreases. -/
theorem drain_deflate_pending (l : Int) (cap : Nat) (hcap : 0 < cap) (flush : ZFlush) :
    ∀ (k : Nat) (rem buf availIn : List Byte), rem.length ≤ k →
      ∃ (n : Nat) (out : List Byte) (calls : List (ZFlush × ZRet)) (s' : DeflateState)
        (a : List Byte),
        drain (deflateT l) cap flush n ⟨buf, some rem⟩ availIn = .done out calls s' a := by
  intro k
  induction k with
  | zero =>
    intro rem buf availIn hlen
    refine ⟨1, _, _, _, _, drain_succ_of_notFull _ _ _ 0 _ _ _ _ _ _
      (deflateT_step_pending l buf rem availIn flush cap) (ite_ret_ne_streamError _) ?_⟩
    rw [List.length_take]
    omega
  | succ k ih =>
    intro rem buf availIn hlen
    by_cases hfull : cap ≤ rem.length
    · have hlen2 : (rem.drop cap).length ≤ k := by
        rw [List.length_drop]
        omega
      obtain ⟨n, o, cs, s3, a3, hrec⟩ := ih (rem.drop cap) buf availIn hlen2
      have heq : drain (deflateT l) cap flush (n + 1) ⟨buf, some rem⟩ availIn =
          .done (rem.take cap ++ o)
            ((flush, if rem.drop cap = [] then ZRet.streamEnd else ZRet.ok) :: cs) s3 a3 := by
        rw [drain_succ_of_full _ _ _ n _ _ _ _ _ _
          (deflateT_step_pending l buf rem availIn flush cap) (ite_ret_ne_streamError _)
          (by rw [List.length_take]; omega), hrec]
      exact ⟨n + 1, _, _, _, _, heq⟩
    · refine ⟨1, _, _, _, _, drain_succ_of_notFull _ _ _ 0 _ _ _ _ _ _
        (deflateT_step_pending l buf rem availIn flush cap) (ite_ret_ne_streamError _) ?_⟩
      rw [List.length_take]
      omega

/-- The drain loop terminates for the modelled deflate transform, from
any state and any available input. -/
theorem drain_deflate_total (l : Int) (cap : Nat) (hcap : 0 < cap) (flush : ZFlush)
    (s : DeflateState) (availIn : List Byte) :
    ∃ n out calls s' a,
      drain (deflateT l) cap flush n s availIn = DrainOut.done out calls s' a := by
  obtain ⟨buf, pending⟩ := s
  cases pending with
  | some rem =>
    exact drain_deflate_pending l cap hcap flush rem.length rem buf availIn (Nat.le_refl _)
  | none =>
    cases flush with
    | noFlush =>
      refine ⟨1, _, _, _, _, drain_succ_of_notFull _ _ _ 0 _ _ _ _ _ _
        (deflateT_step_noFlush l buf availIn cap) (by decide) (by simpa using hcap)⟩
    | finish =>
      by_cases hfull : cap ≤ (encodePayload l (buf ++ availIn)).length
      · obtain ⟨n, o, cs, s3, a3, hrec⟩ := drain_deflate_pending l cap hcap .finish
          ((encodePayload l (buf ++ availIn)).drop cap).length
          ((encodePayload l (buf ++ availIn)).drop cap) [] [] (Nat.le_refl _)
        have heq : drain (deflateT l) cap .finish (n + 1) ⟨buf, none⟩ availIn =
            .done ((encodePayload l (buf ++ availIn)).take cap ++ o)
              ((ZFlush.finish,
                if (encodePayload l (buf ++ availIn)).drop cap = [] then ZRet.streamEnd
                else ZRet.ok) :: cs) s3 a3 := by
          rw [drain_succ_of_full _ _ _ n _ _ _ _ _ _ (deflateT_step_finish l buf availIn cap)
            (ite_ret_ne_streamError _) (by rw [List.length_take]; omega), hrec]
        exact ⟨n + 1, _, _, _, _, heq⟩
      · refine ⟨1, _, _, _, _, drain_succ_of_notFull _ _ _ 0 _ _ _ _ _ _
          (deflateT_step_finish l buf availIn cap) (ite_ret_ne_streamError _) ?_⟩
        rw [List.length_take]
        omega

/-- Shape of one inflate invocation: all input is consumed into the
received stream, the emitted counter advances by exactly the bytes
produced, the return code is never the internal-error code, and the
bytes produced never exceed what has been received and not yet
emitted. -/
theorem inflateT_step_shape (s : InflateState) (availIn : List Byte) (flush : ZFlush)
    (cap : Nat) :
    ∃ ret out fin, inflateT.step s availIn flush cap =
      (ret, out, [], ⟨s.got ++ availIn, s.emitted + out.length, fin⟩) ∧
      ret ≠ ZRet.streamError ∧ out.length ≤ (s.got ++ availIn).length - s.emitted := by
  obtain ⟨got0, emitted, finished⟩ := s
  have hbound : ∀ out : List Byte,
      out = ((((got0 ++ availIn).drop 10).take
        (bytesToNatBE (((got0 ++ availIn).drop 2).take 8))).drop emitted).take cap →
      out.length ≤ (got0 ++ availIn).length - emitted := by
    intro out h
    subst h
    simp only [List.length_take, List.length_drop]
    omega
  unfold inflateT
  dsimp only
  split
  · exact ⟨ZRet.streamEnd, [], true, by simp, by decide, by simp⟩
  · split
    · exact ⟨ZRet.ok, [], false, by simp, by decide, by simp⟩
    · split
      · split
        · exact ⟨_, _, _, rfl, by decide, hbound _ rfl⟩
        · exact ⟨_, _, _, rfl, by decide, hbound _ rfl⟩
      · exact ⟨_, _, _, rfl, by decide, hbound _ rfl⟩

/-- The drain loop terminates for the modelled inflate transform: each
full-buffer iteration emits `cap` more payload bytes out of the finitely
many received and not yet emitted. -/
theorem drain_inflate_total (cap : Nat) (hcap : 0 < cap) (flush : ZFlush) :
    ∀ (k : Nat) (s : InflateState) (availIn : List Byte),
      (s.got ++ availIn).length - s.emitted ≤ k →
      ∃ n out calls s' a,
        drain inflateT cap flush n s availIn = DrainOut.done out calls s' a := by
  intro k
  induction k with
  | zero =>
    intro s availIn hm
    obtain ⟨ret, out, fin, hstep, hne, hbound⟩ := inflateT_step_shape s availIn flush cap
    exact ⟨1, _, _, _, _, drain_succ_of_notFull _ _ _ 0 _ _ _ _ _ _ hstep hne (by omega)⟩
  | succ k ih =>
    intro s availIn hm
    obtain ⟨ret, out, fin, hstep, hne, hbound⟩ := inflateT_step_shape s availIn flush cap
    by_cases hfull : cap ≤ out.length
    · have hm2 : (((⟨s.got ++ availIn, s.emitted + out.length, fin⟩ : InflateState).got ++
          []).length - (⟨s.got ++ availIn, s.emitted + out.length, fin⟩ : InflateState).emitted)
          ≤ k := by
        simp only [List.append_nil]
        omega
      obtain ⟨n, o, cs, s3, a3, hrec⟩ := ih ⟨s.got ++ availIn, s.emitted + out.length, fin⟩ [] hm2
      have heq : drain inflateT cap flush (n + 1) s availIn =
          .done (out ++ o) ((flush, ret) :: cs) s3 a3 := by
        rw [drain_succ_of_full _ _ _ n _ _ _ _ _ _ hstep hne hfull, hrec]
      exact ⟨n + 1, _, _, _, _, heq⟩
    · exact ⟨1, _, _, _, _, drain_succ_of_notFull _ _ _ 0 _ _ _ _ _ _ hstep hne
        (Nat.lt_of_not_le hfull)⟩

/-- Claim C8: the inner drain loop terminates.  For both modelled
transforms, from every state and every available input there is a fuel
bound within which the loop reaches its normal exit; and structurally,
the loop exits as soon as one iteration produces fewer output bytes than
the buffer capacity (including a zero-output iteration), repeating only
while an iteration left the output buffer completely full. -/
theorem drain_loop_terminates (cap : Nat) (hcap : 0 < cap) :
    (∀ (l : Int) (flush : ZFlush) (s : DeflateState) (availIn : List Byte),
        ∃ n out calls s' a,
          drain (deflateT l) cap flush n s availIn = DrainOut.done out calls s' a) ∧
    (∀ (flush : ZFlush) (s : InflateState) (availIn : List Byte),
        ∃ n out calls s' a,
          drain inflateT cap flush n s availIn = DrainOut.done out calls s' a) ∧
    (∀ {σ : Type} (T : Transform σ) (flush : ZFlush) (fuel : Nat) (s s' : σ)
        (availIn availIn' out : List Byte) (ret : ZRet),
        T.step s availIn flush cap = (ret, out, availIn', s') → ret ≠ ZRet.streamError →
        out.length < cap →
        drain T cap flush (fuel + 1) s availIn = DrainOut.done out [(flush, ret)] s' availIn') := by
  refine ⟨?_, ?_, ?_⟩
  · intro l flush s availIn
    exact drain_deflate_total l cap hcap flush s availIn
  · intro flush s availIn
    exact drain_inflate_total cap hcap flush ((s.got ++ availIn).length - s.emitted) s availIn
      (Nat.le_refl _)
  · intro σ T flush fuel s s' availIn availIn' out ret hstep hne hlt
    exact drain_succ_of_notFull T cap flush fuel s s' availIn availIn' out ret hstep hne hlt

/-- Witness for C8 at the source's buffer capacity, on a deflate finish
over a one-byte input. -/
theorem drain_loop_terminates_witness :
    (0 : Nat) < CHUNK ∧
    ∃ n out calls s' a, drain (deflateT 6) CHUNK ZFlush.finish n ⟨[], none⟩ [1] =
      DrainOut.done out calls s' a :=
  ⟨by decide, (drain_loop_terminates CHUNK (by decide)).1 6 ZFlush.finish ⟨[], none⟩ [1]⟩

end Task2
